import Mathlib

/-!
Shallow embedding of the Cassandra market-crash dashboard core logic.

Embedded source functions:
* `app.py` `analyze_market` — thresholding of a crash probability into a
  (risk level, recommendation, color) triple; probabilities modelled as `ℚ`.
* `app.py` `main` — the four substring-token feature groups, the sidebar
  sections, the `feature_values` dictionary built from number inputs, and the
  assembly `np.array([feature_values[f] for f in model.feature_names_in_])`
  (a missing key raises `KeyError`, modelled as `none`).
* `data_fetcher.py` `fetch_current_market_data` — per-symbol fetch with a
  try/except; the external query result per ticker is an oracle parameter
  (`FetchOutcome`): either a raised exception, or a price history whose last
  close is taken when non-empty.

The Python substring test `tok in name` is modelled as infix containment of the
character lists of the two strings.
-/

namespace Cassandra

/-- Python `tok in name`: `tok` occurs as a contiguous substring of `name`. -/
def pyIn (tok name : String) : Bool := decide (tok.data <:+: name.data)

/-- Tokens of the Market Indices group (`app.py` line 60). -/
def market_tokens : List String := ["VIX", "DXY", "BDIY", "MXEU", "MXRU", "MXIN"]

/-- Tokens of the Interest Rates group (`app.py` line 61). -/
def rates_tokens : List String := ["USGG", "GTTL", "US0001M", "GTITL", "GTJPY", "GTGBP"]

/-- Tokens of the ETFs group (`app.py` line 62). -/
def etf_tokens : List String := ["LF98TRUU", "LG30TRUU", "LP01TREU"]

/-- Tokens of the Currency Rates group (`app.py` line 63). -/
def currency_tokens : List String := ["JPY", "ECSURPUS"]

/-- Python `any(x in f for x in toks)`. -/
def inGroup (toks : List String) (f : String) : Bool := toks.any (fun x => pyIn x f)

/-- The comprehension `[f for f in features if any(x in f for x in toks)]`. -/
def groupFilter (toks : List String) (features : List String) : List String :=
  features.filter (fun f => inGroup toks f)

/-- The `market_indices` list comprehension, `app.py` line 60. -/
def market_indices (features : List String) : List String :=
  groupFilter market_tokens features

/-- The `rates` list comprehension, `app.py` line 61. -/
def rates (features : List String) : List String :=
  groupFilter rates_tokens features

/-- The `etfs` list comprehension, `app.py` line 62. -/
def etfs (features : List String) : List String :=
  groupFilter etf_tokens features

/-- The `currencies` list comprehension, `app.py` line 63. -/
def currencies (features : List String) : List String :=
  groupFilter currency_tokens features

/-- The `sections` list, `app.py` lines 66-71. -/
def sections (features : List String) : List (String × List String) :=
  [("Market Indices", market_indices features),
   ("Interest Rates", rates features),
   ("ETFs", etfs features),
   ("Currency Rates", currencies features)]

/-- The risk-threshold chain of `analyze_market` (`app.py` lines 25-36),
as a function of the crash probability. -/
def risk_eval (crash_prob : ℚ) : String × String × String :=
  if crash_prob < 3/10 then
    ("LOW", "Consider maintaining full market exposure", "green")
  else if crash_prob < 6/10 then
    ("MEDIUM", "Consider reducing position size to 50%", "yellow")
  else
    ("HIGH", "Consider moving to cash", "red")

/-- The function `analyze_market` (`app.py` lines 22-38); the opaque model is an oracle
`predict_proba` from the feature vector to the crash probability. -/
def analyze_market (predict_proba : List ℚ → ℚ) (market_data : List ℚ) :
    ℚ × String × String × String :=
  let crash_prob := predict_proba market_data
  (crash_prob, risk_eval crash_prob)

/-- Outcome of the external query for one ticker: the call either raises, or
returns a price history (the list of closes; an empty list is an empty
data frame). -/
inductive FetchOutcome where
  | raises : FetchOutcome
  | history : List ℚ → FetchOutcome

/-- Python dict assignment `d[k] = v` on an association list: replace in place
when the key is present, append otherwise. -/
def dictInsert (d : List (String × ℚ)) (k : String) (v : ℚ) : List (String × ℚ) :=
  if d.any (fun e => e.1 == k) then
    d.map (fun e => if e.1 == k then (k, v) else e)
  else
    d ++ [(k, v)]

/-- One iteration of the fetch loop (`data_fetcher.py` lines 20-26): on a
raised exception store `0.0`; on a non-empty history store its last close; on
an empty history store nothing. -/
def fetch_step (outcome : String → FetchOutcome) (data : List (String × ℚ))
    (e : String × String) : List (String × ℚ) :=
  match outcome e.2 with
  | FetchOutcome.raises => dictInsert data e.1 0
  | FetchOutcome.history h =>
    match h.getLast? with
    | none => data
    | some v => dictInsert data e.1 v

/-- The `for our_symbol, yf_symbol in symbols_map.items()` loop of
`data_fetcher.py`, threading the `data` dict. -/
def fetch_loop (outcome : String → FetchOutcome) (data : List (String × ℚ)) :
    List (String × String) → List (String × ℚ)
  | [] => data
  | e :: rest => fetch_loop outcome (fetch_step outcome data e) rest

/-- The function `fetch_current_market_data` (`data_fetcher.py`), generic in the symbol map
and in the per-ticker outcome oracle. -/
def fetch_current_market_data (symbols_map : List (String × String))
    (outcome : String → FetchOutcome) : List (String × ℚ) :=
  fetch_loop outcome [] symbols_map

/-- The hardcoded `symbols_map` of `data_fetcher.py` lines 6-16. -/
def symbols_map : List (String × String) :=
  [("VIX", "^VIX"), ("DXY", "DX-Y.NYB"), ("MXEU", "IEUR"), ("MXRU", "ERUS"),
   ("MXIN", "INDA"), ("USGG30YR", "^TYX"), ("USGG2YR", "^IRX"), ("JPY", "JPY=X")]

/-- The value the loop body stores for a ticker with the given outcome:
`some 0` after an exception, the last close of a non-empty history, nothing
for an empty history. -/
def fetch_val (outcome : String → FetchOutcome) (s : String) : Option ℚ :=
  match outcome s with
  | FetchOutcome.raises => some 0
  | FetchOutcome.history h => h.getLast?

/-- The per-section inner loop of `app.py` lines 122-131: store one
`number_input` value per feature into the `feature_values` dict. The value
the user leaves in the widget is the oracle `input` (section name, feature). -/
def insert_section (input : String → String → ℚ) (sec_name : String)
    (data : List (String × ℚ)) : List String → List (String × ℚ)
  | [] => data
  | f :: rest => insert_section input sec_name (dictInsert data f (input sec_name f)) rest

/-- The outer loop over `sections` of `app.py` lines 120-131. -/
def insert_sections (input : String → String → ℚ) (data : List (String × ℚ)) :
    List (String × List String) → List (String × ℚ)
  | [] => data
  | sec :: rest => insert_sections input (insert_section input sec.1 data sec.2) rest

/-- The `feature_values` dict after the sidebar loops, for a model feature
list and input oracle. -/
def feature_values (features : List String) (input : String → String → ℚ) :
    List (String × ℚ) :=
  insert_sections input [] (sections features)

/-- The comprehension `[feature_values[f] for f in names]`: `none` when some key is missing
(Python raises `KeyError` there). -/
def lookup_all (fv : List (String × ℚ)) : List String → Option (List ℚ)
  | [] => some []
  | f :: rest =>
    match fv.lookup f with
    | none => none
    | some v => (lookup_all fv rest).map (fun l => v :: l)

/-- The assembly `market_data = np.array([feature_values[f] for f in model.feature_names_in_])`,
`app.py` line 139. -/
def market_data_vector (features : List String) (input : String → String → ℚ) :
    Option (List ℚ) :=
  lookup_all (feature_values features input) features

/-- A feature name matching at least one of the four groups. -/
def matched (f : String) : Bool :=
  inGroup market_tokens f || inGroup rates_tokens f ||
    inGroup etf_tokens f || inGroup currency_tokens f

/-! ### Association-list lemmas for the Python dict model -/

theorem lookup_cons_ite (f k : String) (v : ℚ) (t : List (String × ℚ)) :
    List.lookup f ((k, v) :: t) = if f = k then some v else List.lookup f t := by
  by_cases h : f = k
  · subst h; simp [List.lookup_cons]
  · simp [List.lookup_cons, beq_false_of_ne h, h]

theorem lookup_map_replace (k : String) (v : ℚ) (f : String) :
    ∀ d : List (String × ℚ),
      (d.map (fun e => if e.1 == k then (k, v) else e)).lookup f =
        if f = k then (if d.any (fun e => e.1 == k) then some v else none)
        else d.lookup f := by
  intro d
  induction d with
  | nil => simp
  | cons e t ih =>
    obtain ⟨a, b⟩ := e
    rw [List.map_cons, List.any_cons]
    by_cases he : a = k
    · rw [if_pos (by simpa using he)]
      rw [lookup_cons_ite]
      by_cases hf : f = k
      · rw [if_pos hf, if_pos hf]
        simp [he]
      · rw [if_neg hf, if_neg hf, ih, if_neg hf]
        rw [lookup_cons_ite]
        rw [if_neg (fun h => hf (h.trans he))]
    · rw [if_neg (by simpa using he)]
      rw [lookup_cons_ite, lookup_cons_ite]
      by_cases hf : f = a
      · rw [if_pos hf, if_pos hf]
        have hfk : f ≠ k := fun h => he (hf.symm.trans h)
        rw [if_neg hfk]
      · rw [if_neg hf, if_neg hf, ih]
        by_cases hk : f = k
        · rw [if_pos hk, if_pos hk]
          have hb : (a == k) = false := beq_false_of_ne he
          rw [hb, Bool.false_or]
        · rw [if_neg hk, if_neg hk]

theorem lookup_append_fresh (k : String) (v : ℚ) (f : String) :
    ∀ d : List (String × ℚ), d.any (fun e => e.1 == k) = false →
      (d ++ [(k, v)]).lookup f = if f = k then some v else d.lookup f := by
  intro d
  induction d with
  | nil =>
    intro _
    simpa using lookup_cons_ite f k v []
  | cons e t ih =>
    intro hfresh
    obtain ⟨a, b⟩ := e
    simp only [List.any_cons, Bool.or_eq_false_iff, beq_eq_false_iff_ne, ne_eq] at hfresh
    rw [List.cons_append]
    rw [lookup_cons_ite, lookup_cons_ite]
    by_cases hf : f = a
    · have hfk : f ≠ k := fun h => hfresh.1 (hf.symm.trans h)
      rw [if_pos hf, if_pos hf, if_neg hfk]
    · rw [if_neg hf, if_neg hf, ih hfresh.2]

theorem lookup_dictInsert (d : List (String × ℚ)) (k : String) (v : ℚ) (f : String) :
    (dictInsert d k v).lookup f = if f = k then some v else d.lookup f := by
  unfold dictInsert
  by_cases hany : d.any (fun e => e.1 == k) = true
  · rw [if_pos hany, lookup_map_replace, hany]
    simp
  · rw [if_neg hany, lookup_append_fresh k v f d (Bool.eq_false_iff.mpr hany)]

/-! ### Fetch-loop lemmas -/

theorem fetch_step_lookup_ne (outcome : String → FetchOutcome)
    (data : List (String × ℚ)) (e : String × String) (k : String) (hk : k ≠ e.1) :
    (fetch_step outcome data e).lookup k = data.lookup k := by
  unfold fetch_step
  cases outcome e.2 with
  | raises =>
    dsimp only
    rw [lookup_dictInsert, if_neg hk]
  | history h =>
    dsimp only
    cases h.getLast? with
    | none => rfl
    | some v =>
      dsimp only
      rw [lookup_dictInsert, if_neg hk]

theorem fetch_step_lookup_self (outcome : String → FetchOutcome)
    (data : List (String × ℚ)) (e : String × String)
    (hdata : data.lookup e.1 = none) :
    (fetch_step outcome data e).lookup e.1 = fetch_val outcome e.2 := by
  unfold fetch_step fetch_val
  cases outcome e.2 with
  | raises =>
    dsimp only
    rw [lookup_dictInsert, if_pos rfl]
  | history h =>
    dsimp only
    cases hl : h.getLast? with
    | none =>
      show List.lookup e.1 data = none
      exact hdata
    | some v =>
      show List.lookup e.1 (dictInsert data e.1 v) = some v
      rw [lookup_dictInsert, if_pos rfl]

theorem fetch_loop_lookup_not_mem (outcome : String → FetchOutcome) (k : String) :
    ∀ (m : List (String × String)) (data : List (String × ℚ)),
      k ∉ m.map Prod.fst →
      (fetch_loop outcome data m).lookup k = data.lookup k := by
  intro m
  induction m with
  | nil => intro data _; rfl
  | cons e rest ih =>
    intro data hk
    rw [List.map_cons, List.mem_cons] at hk
    push_neg at hk
    rw [fetch_loop, ih _ hk.2, fetch_step_lookup_ne outcome data e k hk.1]

theorem fetch_loop_lookup_mem (outcome : String → FetchOutcome) :
    ∀ (m : List (String × String)) (data : List (String × ℚ)) (k s : String),
      (k, s) ∈ m → (m.map Prod.fst).Nodup → data.lookup k = none →
      (fetch_loop outcome data m).lookup k = fetch_val outcome s := by
  intro m
  induction m with
  | nil => intro data k s h; cases h
  | cons e rest ih =>
    intro data k s hmem hnd hdata
    rw [List.map_cons, List.nodup_cons] at hnd
    rcases List.mem_cons.mp hmem with heq | hrest
    · have hk : k = e.1 := congrArg Prod.fst heq
      have hs : s = e.2 := congrArg Prod.snd heq
      subst hk
      subst hs
      rw [fetch_loop, fetch_loop_lookup_not_mem outcome e.1 rest _ hnd.1]
      exact fetch_step_lookup_self outcome data e hdata
    · have hkrest : k ∈ rest.map Prod.fst :=
        List.mem_map.mpr ⟨(k, s), hrest, rfl⟩
      have hk1 : k ≠ e.1 := fun h => hnd.1 (h ▸ hkrest)
      rw [fetch_loop]
      exact ih _ k s hrest hnd.2
        (by rw [fetch_step_lookup_ne outcome data e k hk1]; exact hdata)

theorem fetch_lookup (m : List (String × String)) (outcome : String → FetchOutcome)
    (k s : String) (hmem : (k, s) ∈ m) (hnd : (m.map Prod.fst).Nodup) :
    (fetch_current_market_data m outcome).lookup k = fetch_val outcome s :=
  fetch_loop_lookup_mem outcome m [] k s hmem hnd rfl

/-! ### Sidebar dict and feature-vector assembly lemmas -/

theorem lookup_insert_section (input : String → String → ℚ) (n : String) :
    ∀ (fs : List String) (data : List (String × ℚ)) (f : String), f ∉ fs →
      (insert_section input n data fs).lookup f = data.lookup f := by
  intro fs
  induction fs with
  | nil => intro data f _; rfl
  | cons g rest ih =>
    intro data f hf
    rw [List.mem_cons] at hf
    push_neg at hf
    rw [insert_section, ih _ _ hf.2, lookup_dictInsert, if_neg hf.1]

theorem lookup_insert_sections (input : String → String → ℚ) :
    ∀ (secs : List (String × List String)) (data : List (String × ℚ)) (f : String),
      (∀ sec ∈ secs, f ∉ sec.2) →
      (insert_sections input data secs).lookup f = data.lookup f := by
  intro secs
  induction secs with
  | nil => intro data f _; rfl
  | cons sec rest ih =>
    intro data f hf
    rw [insert_sections, ih _ _ (fun s hs => hf s (List.mem_cons_of_mem _ hs))]
    exact lookup_insert_section input sec.1 sec.2 data f (hf sec (List.mem_cons_self _ _))

theorem insert_section_lookup_isSome (input : String → String → ℚ) (n : String) :
    ∀ (fs : List String) (data : List (String × ℚ)) (f : String),
      (f ∈ fs ∨ (data.lookup f).isSome = true) →
      ((insert_section input n data fs).lookup f).isSome = true := by
  intro fs
  induction fs with
  | nil =>
    intro data f h
    rcases h with h | h
    · cases h
    · exact h
  | cons g rest ih =>
    intro data f h
    rw [insert_section]
    apply ih
    rcases h with h | h
    · rcases List.mem_cons.mp h with h | h
      · right
        subst h
        rw [lookup_dictInsert, if_pos rfl]
        rfl
      · left; exact h
    · right
      rw [lookup_dictInsert]
      by_cases hg : f = g
      · rw [if_pos hg]; rfl
      · rw [if_neg hg]; exact h

theorem insert_sections_lookup_isSome (input : String → String → ℚ) :
    ∀ (secs : List (String × List String)) (data : List (String × ℚ)) (f : String),
      ((∃ sec ∈ secs, f ∈ sec.2) ∨ (data.lookup f).isSome = true) →
      ((insert_sections input data secs).lookup f).isSome = true := by
  intro secs
  induction secs with
  | nil =>
    intro data f h
    rcases h with ⟨sec, hsec, _⟩ | h
    · cases hsec
    · exact h
  | cons sec rest ih =>
    intro data f h
    rw [insert_sections]
    apply ih
    rcases h with ⟨s, hs, hfs⟩ | h
    · rcases List.mem_cons.mp hs with hcur | hrest
      · right
        exact insert_section_lookup_isSome input sec.1 sec.2 data f (Or.inl (hcur ▸ hfs))
      · left; exact ⟨s, hrest, hfs⟩
    · right
      exact insert_section_lookup_isSome input sec.1 sec.2 data f (Or.inr h)

theorem lookup_all_eq_map (fv : List (String × ℚ)) :
    ∀ names : List String, (∀ f ∈ names, (fv.lookup f).isSome = true) →
      lookup_all fv names = some (names.map (fun f => (fv.lookup f).getD 0)) := by
  intro names
  induction names with
  | nil => intro _; rfl
  | cons g rest ih =>
    intro h
    obtain ⟨v, hv⟩ := Option.isSome_iff_exists.mp (h g (List.mem_cons_self _ _))
    rw [lookup_all, hv]
    dsimp only
    rw [ih (fun f hf => h f (List.mem_cons_of_mem _ hf))]
    simp [hv]

theorem lookup_all_eq_none (fv : List (String × ℚ)) :
    ∀ (names : List String) (f : String), f ∈ names → fv.lookup f = none →
      lookup_all fv names = none := by
  intro names
  induction names with
  | nil => intro f h; cases h
  | cons g rest ih =>
    intro f hf hnone
    rcases List.mem_cons.mp hf with h | h
    · subst h
      rw [lookup_all, hnone]
    · rw [lookup_all]
      cases hl : fv.lookup g with
      | none => rfl
      | some v =>
        dsimp only
        rw [ih f h hnone]
        rfl

/-! ### Group-membership helpers -/

theorem mem_groupFilter_iff (toks features : List String) (f : String) :
    f ∈ groupFilter toks features ↔ f ∈ features ∧ inGroup toks f = true := by
  simp [groupFilter, List.mem_filter]

theorem not_mem_section_of_unmatched (features : List String) (f : String)
    (hun : matched f = false) :
    ∀ sec ∈ sections features, f ∉ sec.2 := by
  simp only [matched, Bool.or_eq_false_iff] at hun
  obtain ⟨⟨⟨h1, h2⟩, h3⟩, h4⟩ := hun
  intro sec hsec
  simp only [sections, List.mem_cons, List.not_mem_nil, or_false] at hsec
  rcases hsec with h | h | h | h <;> subst h <;> intro hmem
  · exact absurd ((mem_groupFilter_iff _ _ _).mp hmem).2 (by rw [h1]; exact Bool.false_ne_true)
  · exact absurd ((mem_groupFilter_iff _ _ _).mp hmem).2 (by rw [h2]; exact Bool.false_ne_true)
  · exact absurd ((mem_groupFilter_iff _ _ _).mp hmem).2 (by rw [h3]; exact Bool.false_ne_true)
  · exact absurd ((mem_groupFilter_iff _ _ _).mp hmem).2 (by rw [h4]; exact Bool.false_ne_true)

theorem mem_section_of_matched (features : List String) (f : String)
    (hf : f ∈ features) (hm : matched f = true) :
    ∃ sec ∈ sections features, f ∈ sec.2 := by
  simp only [matched, Bool.or_eq_true] at hm
  rcases hm with ((h | h) | h) | h
  · exact ⟨("Market Indices", market_indices features), by simp [sections],
      (mem_groupFilter_iff _ _ _).mpr ⟨hf, h⟩⟩
  · exact ⟨("Interest Rates", rates features), by simp [sections],
      (mem_groupFilter_iff _ _ _).mpr ⟨hf, h⟩⟩
  · exact ⟨("ETFs", etfs features), by simp [sections],
      (mem_groupFilter_iff _ _ _).mpr ⟨hf, h⟩⟩
  · exact ⟨("Currency Rates", currencies features), by simp [sections],
      (mem_groupFilter_iff _ _ _).mpr ⟨hf, h⟩⟩

/-! ### Claim theorems -/

/-- C1: for every probability `p`, the risk evaluation returns exactly the
table row of its interval: `[0, 0.3)` yields LOW / "Consider maintaining full
market exposure" / green; `[0.3, 0.6)` yields MEDIUM / "Consider reducing
position size to 50%" / yellow; `[0.6, 1]` yields HIGH / "Consider moving to
cash" / red; the boundaries `0.3` and `0.6` fall in the upper tier. -/
theorem risk_table_rows :
    (∀ p : ℚ, 0 ≤ p → p < 3/10 →
      risk_eval p = ("LOW", "Consider maintaining full market exposure", "green")) ∧
    (∀ p : ℚ, 3/10 ≤ p → p < 6/10 →
      risk_eval p = ("MEDIUM", "Consider reducing position size to 50%", "yellow")) ∧
    (∀ p : ℚ, 6/10 ≤ p → p ≤ 1 →
      risk_eval p = ("HIGH", "Consider moving to cash", "red")) ∧
    risk_eval (3/10) = ("MEDIUM", "Consider reducing position size to 50%", "yellow") ∧
    risk_eval (6/10) = ("HIGH", "Consider moving to cash", "red") := by
  refine ⟨?_, ?_, ?_, ?_, ?_⟩
  · intro p _ h
    rw [risk_eval, if_pos h]
  · intro p h1 h2
    rw [risk_eval, if_neg (not_lt.mpr h1), if_pos h2]
  · intro p h1 _
    have h3 : ¬p < 3/10 := not_lt.mpr (le_trans (by norm_num) h1)
    rw [risk_eval, if_neg h3, if_neg (not_lt.mpr h1)]
  · norm_num [risk_eval]
  · norm_num [risk_eval]

/-- C1 witness: the LOW row evaluated at the concrete probability `0.1`. -/
theorem risk_table_rows_witness :
    ((0 : ℚ) ≤ 1/10 ∧ (1/10 : ℚ) < 3/10) ∧
    risk_eval (1/10) = ("LOW", "Consider maintaining full market exposure", "green") :=
  ⟨⟨by norm_num, by norm_num⟩, risk_table_rows.1 (1/10) (by norm_num) (by norm_num)⟩

/-- C7: the risk evaluation is a pure, deterministic, total function of the
probability: equal inputs give equal (tier, recommendation, color) triples,
every `p ∈ [0,1]` produces one of the three fixed triples, and
`analyze_market` is exactly the pair of the probability from the model and the
evaluation of that probability. -/
theorem risk_eval_pure_total :
    (∀ p q : ℚ, p = q → risk_eval p = risk_eval q) ∧
    (∀ p : ℚ, 0 ≤ p → p ≤ 1 →
      risk_eval p = ("LOW", "Consider maintaining full market exposure", "green") ∨
      risk_eval p = ("MEDIUM", "Consider reducing position size to 50%", "yellow") ∨
      risk_eval p = ("HIGH", "Consider moving to cash", "red")) ∧
    (∀ (predict_proba : List ℚ → ℚ) (market_data : List ℚ),
      analyze_market predict_proba market_data =
        (predict_proba market_data, risk_eval (predict_proba market_data))) := by
  refine ⟨fun p q h => by rw [h], ?_, fun _ _ => rfl⟩
  intro p _ _
  by_cases h3 : p < 3/10
  · left
    rw [risk_eval, if_pos h3]
  · by_cases h6 : p < 6/10
    · right; left
      rw [risk_eval, if_neg h3, if_pos h6]
    · right; right
      rw [risk_eval, if_neg h3, if_neg h6]

/-- C7 witness: determinism and three-triple totality at the concrete
probability `0.5`. -/
theorem risk_eval_pure_total_witness :
    ((1 : ℚ)/2 = 1/2 ∧ (0 : ℚ) ≤ 1/2 ∧ (1/2 : ℚ) ≤ 1) ∧
    risk_eval (1/2) = risk_eval (1/2) ∧
    (risk_eval (1/2) = ("LOW", "Consider maintaining full market exposure", "green") ∨
      risk_eval (1/2) = ("MEDIUM", "Consider reducing position size to 50%", "yellow") ∨
      risk_eval (1/2) = ("HIGH", "Consider moving to cash", "red")) :=
  ⟨⟨rfl, by norm_num, by norm_num⟩,
   risk_eval_pure_total.1 (1/2) (1/2) rfl,
   risk_eval_pure_total.2.1 (1/2) (by norm_num) (by norm_num)⟩

/-- C9: the classification is total over all rational inputs with no clamping:
any `p < 0.3` (negatives included) gives the LOW triple, `0.3 ≤ p < 0.6` the
MEDIUM triple, and every other input (values above 1 included) the HIGH
triple, so the result is always one of exactly three fixed triples. -/
theorem risk_eval_no_clamping :
    (∀ p : ℚ, p < 3/10 →
      risk_eval p = ("LOW", "Consider maintaining full market exposure", "green")) ∧
    (∀ p : ℚ, 3/10 ≤ p → p < 6/10 →
      risk_eval p = ("MEDIUM", "Consider reducing position size to 50%", "yellow")) ∧
    (∀ p : ℚ, ¬p < 6/10 →
      risk_eval p = ("HIGH", "Consider moving to cash", "red")) ∧
    (∀ p : ℚ,
      risk_eval p = ("LOW", "Consider maintaining full market exposure", "green") ∨
      risk_eval p = ("MEDIUM", "Consider reducing position size to 50%", "yellow") ∨
      risk_eval p = ("HIGH", "Consider moving to cash", "red")) ∧
    risk_eval (-1) = ("LOW", "Consider maintaining full market exposure", "green") ∧
    risk_eval 2 = ("HIGH", "Consider moving to cash", "red") := by
  refine ⟨?_, ?_, ?_, ?_, ?_, ?_⟩
  · intro p h
    rw [risk_eval, if_pos h]
  · intro p h1 h2
    rw [risk_eval, if_neg (not_lt.mpr h1), if_pos h2]
  · intro p h6
    have h3 : ¬p < 3/10 := fun h => h6 (h.trans (by norm_num))
    rw [risk_eval, if_neg h3, if_neg h6]
  · intro p
    by_cases h3 : p < 3/10
    · left
      rw [risk_eval, if_pos h3]
    · by_cases h6 : p < 6/10
      · right; left
        rw [risk_eval, if_neg h3, if_pos h6]
      · right; right
        rw [risk_eval, if_neg h3, if_neg h6]
  · norm_num [risk_eval]
  · norm_num [risk_eval]

/-- C9 witness: the LOW row applied at the out-of-range probability `-1`. -/
theorem risk_eval_no_clamping_witness :
    ((-1 : ℚ) < 3/10) ∧
    risk_eval (-1) = ("LOW", "Consider maintaining full market exposure", "green") :=
  ⟨by norm_num, risk_eval_no_clamping.1 (-1) (by norm_num)⟩

/-- C2: for every indicator name and each group, the name lies in the filtered
list of the group iff it is a model feature containing at least one token of
that group as a substring, membership being computed independently per
group; in particular "USGG30YR" matches only Interest Rates, "MXEU" only
Market Indices, and "FOO" no group. -/
theorem classifier_substring_membership :
    (∀ (features toks : List String) (f : String),
      f ∈ groupFilter toks features ↔ f ∈ features ∧ inGroup toks f = true) ∧
    (∀ (toks : List String) (f : String),
      inGroup toks f = true ↔ ∃ t ∈ toks, t.data <:+: f.data) ∧
    (inGroup rates_tokens "USGG30YR" = true ∧ inGroup market_tokens "USGG30YR" = false ∧
      inGroup etf_tokens "USGG30YR" = false ∧ inGroup currency_tokens "USGG30YR" = false) ∧
    (inGroup market_tokens "MXEU" = true ∧ inGroup rates_tokens "MXEU" = false ∧
      inGroup etf_tokens "MXEU" = false ∧ inGroup currency_tokens "MXEU" = false) ∧
    (inGroup market_tokens "FOO" = false ∧ inGroup rates_tokens "FOO" = false ∧
      inGroup etf_tokens "FOO" = false ∧ inGroup currency_tokens "FOO" = false) := by
  refine ⟨fun features toks f => mem_groupFilter_iff toks features f, ?_, ?_, ?_, ?_⟩
  · intro toks f
    simp [inGroup, List.any_eq_true, pyIn]
  · exact ⟨by decide, by decide, by decide, by decide⟩
  · exact ⟨by decide, by decide, by decide, by decide⟩
  · exact ⟨by decide, by decide, by decide, by decide⟩

/-- C5: the name list of each group is the stable filter of the model feature
list, so it preserves the original model ordering; with
`featureNames() = [VIX, BDIY, DXY]` the Market Indices group lists exactly
`[VIX, BDIY, DXY]`. -/
theorem group_order_stable :
    (∀ toks features : List String, (groupFilter toks features).Sublist features) ∧
    (∀ (features : List String) (sec : String × List String),
      sec ∈ sections features → sec.2.Sublist features) ∧
    market_indices ["VIX", "BDIY", "DXY"] = ["VIX", "BDIY", "DXY"] := by
  refine ⟨fun toks features => List.filter_sublist features, ?_, by decide⟩
  intro features sec hsec
  simp only [sections, List.mem_cons, List.not_mem_nil, or_false] at hsec
  rcases hsec with h | h | h | h <;> subst h <;> exact List.filter_sublist features

/-- C5 witness: the Market Indices section of the concrete feature list
`[VIX, BDIY, DXY]` is a sublist of it, via the theorem. -/
theorem group_order_stable_witness :
    (("Market Indices", market_indices ["VIX", "BDIY", "DXY"]) ∈
      sections ["VIX", "BDIY", "DXY"]) ∧
    (market_indices ["VIX", "BDIY", "DXY"]).Sublist ["VIX", "BDIY", "DXY"] :=
  ⟨by simp [sections],
   group_order_stable.2.1 ["VIX", "BDIY", "DXY"]
     ("Market Indices", market_indices ["VIX", "BDIY", "DXY"]) (by simp [sections])⟩

/-- C10: the groups are not disjoint: any feature name containing "GTJPY"
belongs to both the Interest Rates group (token "GTJPY") and the Currency
Rates group (token "JPY"), hence appears in those two display sections. -/
theorem gtjpy_in_two_sections
    (features : List String) (f : String)
    (hf : f ∈ features) (hg : pyIn "GTJPY" f = true) :
    inGroup rates_tokens f = true ∧ inGroup currency_tokens f = true ∧
    f ∈ rates features ∧ f ∈ currencies features := by
  have hjpy : pyIn "JPY" f = true := by
    have h1 : "GTJPY".data <:+: f.data := of_decide_eq_true hg
    have h2 : "JPY".data <:+: "GTJPY".data := by decide
    exact decide_eq_true (h2.trans h1)
  have hr : inGroup rates_tokens f = true := by
    rw [inGroup, List.any_eq_true]
    exact ⟨"GTJPY", by decide, hg⟩
  have hc : inGroup currency_tokens f = true := by
    rw [inGroup, List.any_eq_true]
    exact ⟨"JPY", by decide, hjpy⟩
  exact ⟨hr, hc, (mem_groupFilter_iff _ _ _).mpr ⟨hf, hr⟩,
    (mem_groupFilter_iff _ _ _).mpr ⟨hf, hc⟩⟩

/-- C10 witness: "GTJPY10YR" lands in both the Interest Rates and the
Currency Rates sections of the feature list `[GTJPY10YR, VIX]`. -/
theorem gtjpy_in_two_sections_witness :
    ("GTJPY10YR" ∈ (["GTJPY10YR", "VIX"] : List String) ∧
      pyIn "GTJPY" "GTJPY10YR" = true) ∧
    (inGroup rates_tokens "GTJPY10YR" = true ∧
      inGroup currency_tokens "GTJPY10YR" = true ∧
      "GTJPY10YR" ∈ rates ["GTJPY10YR", "VIX"] ∧
      "GTJPY10YR" ∈ currencies ["GTJPY10YR", "VIX"]) :=
  ⟨⟨by decide, by decide⟩,
   gtjpy_in_two_sections ["GTJPY10YR", "VIX"] "GTJPY10YR" (by decide) (by decide)⟩

/-- C3: for every symbol map and per-symbol outcome, a symbol whose fetch
raises is mapped to 0.0 in the result while every other symbol (with a
non-empty history) keeps its real last close; the loop always returns a
dictionary, so no exception escapes. -/
theorem fetch_failure_substitutes_zero
    (m : List (String × String)) (outcome : String → FetchOutcome)
    (hnd : (m.map Prod.fst).Nodup) (k s : String)
    (hmem : (k, s) ∈ m) (hfail : outcome s = FetchOutcome.raises)
    (hok : ∀ k' s', (k', s') ∈ m → k' ≠ k →
      ∃ h v, outcome s' = FetchOutcome.history h ∧ h.getLast? = some v) :
    (fetch_current_market_data m outcome).lookup k = some 0 ∧
    (∀ k' s', (k', s') ∈ m → k' ≠ k →
      ∃ h v, outcome s' = FetchOutcome.history h ∧ h.getLast? = some v ∧
        (fetch_current_market_data m outcome).lookup k' = some v) := by
  constructor
  · rw [fetch_lookup m outcome k s hmem hnd, fetch_val, hfail]
  · intro k' s' hmem' hne
    obtain ⟨h, v, hh, hl⟩ := hok k' s' hmem' hne
    refine ⟨h, v, hh, hl, ?_⟩
    rw [fetch_lookup m outcome k' s' hmem' hnd, fetch_val, hh]
    exact hl

/-- C3 witness: with the map `[(VIX, ^VIX), (DXY, BAD)]` where only the BAD
ticker raises, the fetched dictionary holds 0.0 for DXY. -/
theorem fetch_failure_substitutes_zero_witness :
    (fetch_current_market_data [("VIX", "^VIX"), ("DXY", "BAD")]
      (fun s => if s = "BAD" then FetchOutcome.raises else FetchOutcome.history [17])).lookup
      "DXY" = some 0 :=
  (fetch_failure_substitutes_zero [("VIX", "^VIX"), ("DXY", "BAD")]
    (fun s => if s = "BAD" then FetchOutcome.raises else FetchOutcome.history [17])
    (by decide) "DXY" "BAD" (by decide) (by norm_num)
    (by
      intro k' s' hmem' hne
      rcases List.mem_cons.mp hmem' with h | h
      · have hs' : s' = "^VIX" := congrArg Prod.snd h
        subst hs'
        exact ⟨[17], 17, by show ite _ _ _ = _; rw [if_neg (show ¬"^VIX" = "BAD" by decide)], rfl⟩
      · rcases List.mem_cons.mp h with h2 | h2
        · exact absurd (congrArg Prod.fst h2) hne
        · cases h2)).1

/-- C8: a per-symbol query that succeeds but returns an empty history leaves
that indicator name out of the result entirely (lookup gives none); only a
raised exception produces the 0.0 substitution, and a successful non-empty
history always stores exactly its last close. -/
theorem fetch_empty_history_omits_key
    (m : List (String × String)) (outcome : String → FetchOutcome)
    (hnd : (m.map Prod.fst).Nodup) (k s : String) (hmem : (k, s) ∈ m) :
    (outcome s = FetchOutcome.history [] →
      (fetch_current_market_data m outcome).lookup k = none) ∧
    (outcome s = FetchOutcome.raises →
      (fetch_current_market_data m outcome).lookup k = some 0) ∧
    (∀ h, outcome s = FetchOutcome.history h →
      (fetch_current_market_data m outcome).lookup k = h.getLast?) := by
  refine ⟨?_, ?_, ?_⟩
  · intro hempty
    rw [fetch_lookup m outcome k s hmem hnd, fetch_val, hempty]
    rfl
  · intro hfail
    rw [fetch_lookup m outcome k s hmem hnd, fetch_val, hfail]
  · intro h hh
    rw [fetch_lookup m outcome k s hmem hnd, fetch_val, hh]

/-- C8 witness: with the map `[(MXEU, IEUR), (VIX, ^VIX)]` where IEUR
succeeds with an empty history, MXEU is absent from the result. -/
theorem fetch_empty_history_omits_key_witness :
    (fetch_current_market_data [("MXEU", "IEUR"), ("VIX", "^VIX")]
      (fun s => if s = "IEUR" then FetchOutcome.history [] else
        FetchOutcome.history [17])).lookup "MXEU" = none :=
  (fetch_empty_history_omits_key [("MXEU", "IEUR"), ("VIX", "^VIX")]
    (fun s => if s = "IEUR" then FetchOutcome.history [] else FetchOutcome.history [17])
    (by decide) "MXEU" "IEUR" (by decide)).1 (by norm_num)

/-- C4 counterexample: with the feature list `["FOO"]` (a name matching no
group) every section is empty, yet the assembled vector is `none` — the
lookup of "FOO" fails (Python raises `KeyError`), so no 0.0-defaulted entry
exists and the claim as stated is false. -/
theorem unmatched_feature_cex :
    (sections ["FOO"]).map Prod.snd = [[], [], [], []] ∧
    market_data_vector ["FOO"] (fun _ _ => 0) = none :=
  ⟨by decide, by decide⟩

/-- C4 amended: a model feature name matching none of the four groups appears
in no display section, is absent from the `feature_values` dict, and the
assembly of the feature vector fails (`KeyError`, modelled as `none`) instead
of supplying a 0.0 default. -/
theorem unmatched_feature_assembly_fails
    (features : List String) (input : String → String → ℚ) (f : String)
    (hf : f ∈ features) (hun : matched f = false) :
    (∀ sec ∈ sections features, f ∉ sec.2) ∧
    (feature_values features input).lookup f = none ∧
    market_data_vector features input = none := by
  have hnosec := not_mem_section_of_unmatched features f hun
  have hnone : (feature_values features input).lookup f = none := by
    rw [feature_values, lookup_insert_sections input (sections features) [] f hnosec]
    rfl
  exact ⟨hnosec, hnone,
    lookup_all_eq_none (feature_values features input) features f hf hnone⟩

/-- C4 amended witness: in the concrete feature list `[VIX, FOO]` the name
"FOO" has no dict entry and the assembly returns `none`. -/
theorem unmatched_feature_assembly_fails_witness :
    ("FOO" ∈ (["VIX", "FOO"] : List String) ∧ matched "FOO" = false) ∧
    (feature_values ["VIX", "FOO"] (fun _ _ => 1)).lookup "FOO" = none ∧
    market_data_vector ["VIX", "FOO"] (fun _ _ => 1) = none :=
  ⟨⟨by decide, by decide⟩,
   (unmatched_feature_assembly_fails ["VIX", "FOO"] (fun _ _ => 1) "FOO"
     (by decide) (by decide)).2⟩

/-- C6: when every model feature name matches at least one group, the
assembled feature vector exists, has the same length as the feature-name
list, and its i-th entry is exactly the `feature_values` entry of the i-th
feature name in the declared model ordering. -/
theorem feature_vector_aligned
    (features : List String) (input : String → String → ℚ)
    (hall : ∀ f ∈ features, matched f = true) :
    ∃ vec, market_data_vector features input = some vec ∧
      vec.length = features.length ∧
      ∀ (i : ℕ) (hi : i < features.length), ∃ v : ℚ,
        (feature_values features input).lookup (features.get ⟨i, hi⟩) = some v ∧
        vec[i]? = some v := by
  have hsome : ∀ f ∈ features, ((feature_values features input).lookup f).isSome = true := by
    intro f hf
    exact insert_sections_lookup_isSome input (sections features) [] f
      (Or.inl (mem_section_of_matched features f hf (hall f hf)))
  refine ⟨features.map (fun f => ((feature_values features input).lookup f).getD 0),
    lookup_all_eq_map (feature_values features input) features hsome, by simp, ?_⟩
  intro i hi
  obtain ⟨v, hv⟩ := Option.isSome_iff_exists.mp
    (hsome (features.get ⟨i, hi⟩) (features.get_mem i hi))
  refine ⟨v, hv, ?_⟩
  simp only [List.getElem?_map, Option.map_eq_some']
  exact ⟨features.get ⟨i, hi⟩, by rw [List.getElem?_eq_getElem hi]; rfl, by rw [hv]; rfl⟩

/-- C6 witness: for the concrete feature list `[VIX, JPY]` (all matched) the
assembly succeeds. -/
theorem feature_vector_aligned_witness :
    (["VIX", "JPY"] : List String).all matched = true ∧
    market_data_vector ["VIX", "JPY"] (fun _ _ => 7) ≠ none := by
  refine ⟨by decide, ?_⟩
  obtain ⟨vec, hvec, -⟩ := feature_vector_aligned ["VIX", "JPY"] (fun _ _ => 7)
    (by intro f hf; revert f; decide)
  rw [hvec]
  exact fun h => Option.noConfusion h

end Cassandra

